import Mathlib

/-!
# Verification of the service supervisor

A shallow embedding of the Go service supervisor (`internal/service`, file
`manager.go` of the system-monitor repository) together with proofs about it.

Conventions of the embedding:

* Go strings are modelled as `List Char`; Go byte/rune distinctions do not
  matter for the verified properties, which are about character content.
* Go slices of strings are `List (List Char)`.
* Go `int` is `Int` (64-bit overflow is modelled explicitly where the source
  can overflow, namely in `strconv.Atoi`).
* OS-level facts (is a PID alive, does a port probe succeed, does `pgrep`
  find children) are an explicit environment record `OsEnv`; the embedded
  functions read the environment exactly where the source shells out or
  issues a syscall.
* Database rows are explicit records; a GORM `Updates(map{...})` call is
  embedded as a record update touching exactly the named columns.
* Functions that can panic in Go are embedded with `Option`, `none` marking
  the panic.
-/

/-! ## Go character classes

`goDigit` is `[0-9]`; `isDigitSemi` is the regex class `[0-9;]` used by the
ANSI-stripping regexes; `isAlphaGo` is `[a-zA-Z]`; `isRe2Space` is RE2's
`\s`, namely `[\t\n\f\r ]`; `isGoSpace` is Go's `unicode.IsSpace`
(the Unicode White_Space property), used by `strings.TrimSpace` and
`strings.Fields`. -/

def goDigit (c : Char) : Bool :=
  '0' ≤ c && c ≤ '9'

def isDigitSemi (c : Char) : Bool :=
  goDigit c || c == ';'

def isAlphaGo (c : Char) : Bool :=
  ('a' ≤ c && c ≤ 'z') || ('A' ≤ c && c ≤ 'Z')

def isRe2Space (c : Char) : Bool :=
  c == '\x09' || c == '\x0a' || c == '\x0c' || c == '\x0d' || c == ' '

def isGoSpace (c : Char) : Bool :=
  ('\x09' ≤ c && c ≤ '\x0d') || c == ' ' || c == '\x85' || c == '\xa0' ||
  c == '\u1680' || ('\u2000' ≤ c && c ≤ '\u200a') || c == '\u2028' ||
  c == '\u2029' || c == '\u202f' || c == '\u205f' || c == '\u3000'

/-- The ESC character `U+001B` (`\x1b`, `\033`, `\u001b` in Go source). -/
def escChar : Char := '\x1b'

/-! ## The bounded log ring (`ProcessInfo.addToLogBuffer`)

Source: `addToLogBuffer` appends the line, then if the buffer exceeds 1000
lines keeps only the last 1000 (`p.LogBuffer[len(p.LogBuffer)-maxBufferSize:]`). -/

def maxBufferSize : Nat := 1000

def addToLogBuffer (buf : List (List Char)) (line : List Char) : List (List Char) :=
  let b := buf ++ [line]
  if b.length > maxBufferSize then b.drop (b.length - maxBufferSize) else b

/-! ## The database row for a service (`projects` table)

Only the columns the supervisor's persistence paths touch are modelled:
`status`, `p_id`, `stop_time`, `last_error`, `logs`.  Timestamps are
abstract `Nat` instants. -/

structure ProjRecord where
  status : List Char
  pid : Int
  stopTime : Option Nat
  lastError : List Char
  logs : Option (List Char)
deriving Repr, DecidableEq

/-! ## Log snapshot persistence (`saveLogsToDatabase`)

Source: returns immediately when `len(logs) == 0`; otherwise marshals the
slice to a JSON array and issues `Update("logs", string(logsJSON))`, which
touches only the `logs` column.  `encodeJSONStringArray` models
`json.Marshal` of a `[]string` (Go's marshaller never fails on a string
slice). -/

def jsonEscapeChar (c : Char) : List Char :=
  if c == '"' then ['\\', '"']
  else if c == '\\' then ['\\', '\\']
  else if c == '\x0a' then ['\\', 'n']
  else if c == '\x09' then ['\\', 't']
  else if c == '\x0d' then ['\\', 'r']
  else [c]

def jsonEncodeString (s : List Char) : List Char :=
  '"' :: (s.flatMap jsonEscapeChar) ++ ['"']

def encodeJSONStringArray (logs : List (List Char)) : List Char :=
  '[' :: (List.intercalate [','] (logs.map jsonEncodeString)) ++ [']']

def saveLogsToDatabase (rec : ProjRecord) (logs : List (List Char)) : ProjRecord :=
  if logs.length = 0 then rec
  else { rec with logs := some (encodeJSONStringArray logs) }

/-! ## Building the child invocation (`prepareCommand`)

Source: when `p.Command != ""`, `parts := strings.Fields(p.Command)` and the
code indexes `parts[0]` in both branches of `if len(parts) > 1`; when
`parts` is empty (a whitespace-only command) this indexing panics, which the
embedding marks with `none`.  When the command is empty a type-derived
default is used.  Extra tokens from `p.Args` are appended. -/

def goFields (l : List Char) : List (List Char) :=
  (l.splitOnP isGoSpace).filter (fun t => !t.isEmpty)

structure CmdSpec where
  argv0 : List Char
  argv : List (List Char)
deriving Repr, DecidableEq

def prepareCommand (command args ptype : List Char) : Option CmdSpec :=
  if command ≠ [] then
    match goFields command with
    | [] => none
    | p0 :: rest =>
      let base : CmdSpec := { argv0 := p0, argv := p0 :: rest }
      if args ≠ [] then some { base with argv := base.argv ++ goFields args }
      else some base
  else if ptype = "backend".data then
    some { argv0 := "go".data, argv := ["go".data, "run".data, "main.go".data] }
  else if ptype = "frontend".data then
    some { argv0 := "npm".data, argv := ["npm".data, "start".data] }
  else
    some { argv0 := "sh".data,
           argv := ["sh".data, "-c".data,
                    "echo ".data ++ '\x27' :: "No command specified".data ++ ['\x27']] }

/-! ## ANSI stripping (`stripANSI`)

The source applies, in order:
1. `regexp \\u001b\[[0-9;]*[a-zA-Z]` removal (JSON-escaped CSI),
2. `regexp \x1b\[[0-9;]*[a-zA-Z]` removal (real CSI),
3. `strings.ReplaceAll` of the raw ESC character (written `"\u001b"`),
4. `strings.ReplaceAll` of the raw ESC character again (written `"\033"`),
5. `strings.ReplaceAll` of the literal text `\u001b`,
6. `strings.ReplaceAll` of the literal text `\033`,
7. `regexp \[[0-9;]+m` removal,
8. `regexp \s+` collapsed to a single space,
9. `strings.TrimSpace`.

Go's `ReplaceAllString` replaces non-overlapping matches in one left-to-right
scan; for these patterns the match at a position is determined by a maximal
`[0-9;]` run, so the scan below is an exact model. -/

def csiMatchLen (pat : List Char) (l : List Char) : Option Nat :=
  if pat.isPrefixOf l then
    let l2 := l.drop pat.length
    let d := (l2.takeWhile isDigitSemi).length
    match l2.drop d with
    | c :: _ => if isAlphaGo c then some (pat.length + d + 1) else none
    | [] => none
  else none

def stripCSIAux (pat : List Char) : List Char → Nat → List Char
  | l, 0 => l
  | [], _ + 1 => []
  | c :: cs, fuel + 1 =>
    match csiMatchLen pat (c :: cs) with
    | some n => stripCSIAux pat (cs.drop (n - 1)) fuel
    | none => c :: stripCSIAux pat cs fuel

def stripCSI (pat l : List Char) : List Char :=
  stripCSIAux pat l l.length

def removeAllAux (pat : List Char) : List Char → Nat → List Char
  | l, 0 => l
  | [], _ + 1 => []
  | c :: cs, fuel + 1 =>
    if pat.isPrefixOf (c :: cs) then removeAllAux pat (cs.drop (pat.length - 1)) fuel
    else c :: removeAllAux pat cs fuel

def removeAll (pat l : List Char) : List Char :=
  removeAllAux pat l l.length

def bareMatchLen (l : List Char) : Option Nat :=
  match l with
  | '[' :: rest =>
    let d := (rest.takeWhile isDigitSemi).length
    if d = 0 then none
    else match rest.drop d with
      | 'm' :: _ => some (d + 2)
      | _ => none
  | _ => none

def stripBareAux : List Char → Nat → List Char
  | l, 0 => l
  | [], _ + 1 => []
  | c :: cs, fuel + 1 =>
    match bareMatchLen (c :: cs) with
    | some n => stripBareAux (cs.drop (n - 1)) fuel
    | none => c :: stripBareAux cs fuel

def stripBare (l : List Char) : List Char :=
  stripBareAux l l.length

def collapseSpaceAux : List Char → Nat → List Char
  | l, 0 => l
  | [], _ + 1 => []
  | c :: cs, fuel + 1 =>
    if isRe2Space c then ' ' :: collapseSpaceAux (cs.dropWhile isRe2Space) fuel
    else c :: collapseSpaceAux cs fuel

def collapseSpace (l : List Char) : List Char :=
  collapseSpaceAux l l.length

def goTrimSpace (l : List Char) : List Char :=
  ((l.dropWhile isGoSpace).reverse.dropWhile isGoSpace).reverse

def stripANSI (s : List Char) : List Char :=
  let r := stripCSI ('\\' :: "u001b[".data) s
  let r := stripCSI [escChar, '['] r
  let r := removeAll [escChar] r
  let r := removeAll [escChar] r
  let r := removeAll ('\\' :: "u001b".data) r
  let r := removeAll ('\\' :: "033".data) r
  let r := stripBare r
  let r := collapseSpace r
  goTrimSpace r

/-- Executable check for a bare `[` + digits/semicolons + letter residue
anywhere in a string (the residue class named by the specification). -/
def residueAt (l : List Char) : Bool :=
  match l with
  | '[' :: rest =>
    let d := (rest.takeWhile isDigitSemi).length
    if d = 0 then false
    else match rest.drop d with
      | c :: _ => isAlphaGo c
      | [] => false
  | _ => false

def containsBareResidue : List Char → Bool
  | [] => false
  | c :: cs => residueAt (c :: cs) || containsBareResidue cs

/-! ## Log capture (`captureOutputWithBuffer`, `safeSendLog`)

Per scanned line the source strips ANSI codes, discards the line if the
result is empty, tags stderr lines with `"[ERROR] "`, appends to the ring
(`addToLogBuffer`), and then attempts a non-blocking channel send
(`safeSendLog`: `select` with a `default` branch, plus a `recover` so that a
send on a closed channel is swallowed).  The channel is modelled by its
buffered contents plus a closed flag; capacity is 1000 (`make(chan string,
1000)` in `StartService`). -/

structure CaptureState where
  ring : List (List Char)
  chan : List (List Char)
  chanClosed : Bool
deriving Repr, DecidableEq

def chanCapacity : Nat := 1000

def safeSendLog (st : CaptureState) (logLine : List Char) : CaptureState × Bool :=
  if st.chanClosed then (st, false)
  else if chanCapacity ≤ st.chan.length then (st, false)
  else ({ st with chan := st.chan ++ [logLine] }, true)

def errTag : List Char := "[ERROR] ".data

def captureLine (isStderr : Bool) (st : CaptureState) (line : List Char) : CaptureState :=
  let cleanLine := stripANSI line
  if cleanLine = [] then st
  else
    let logLine := if isStderr then errTag ++ cleanLine else cleanLine
    let st1 := { st with ring := addToLogBuffer st.ring logLine }
    (safeSendLog st1 logLine).1

/-! ## Port extraction (`extractPortFromLsofName`, `extractPortFromAddr`)

`goAtoi` models `strconv.Atoi` on 64-bit targets: optional sign, at least
one digit, nothing else, range-checked against int64. -/

def digitsVal (l : List Char) : Nat :=
  l.foldl (fun n c => 10 * n + (c.toNat - '0'.toNat)) 0

def goAtoi (l : List Char) : Option Int :=
  let signAndDigits : Bool × List Char :=
    match l with
    | '+' :: r => (false, r)
    | '-' :: r => (true, r)
    | r => (false, r)
  let neg := signAndDigits.1
  let ds := signAndDigits.2
  if ds.isEmpty || !(ds.all goDigit) then none
  else
    let v : Int := if neg then -(digitsVal ds : Int) else (digitsVal ds : Int)
    if v < -9223372036854775808 || v > 9223372036854775807 then none else some v

def trimCutsetBrackets (l : List Char) : List Char :=
  ((l.dropWhile (fun c => c == '[' || c == ']')).reverse.dropWhile
    (fun c => c == '[' || c == ']')).reverse

def lastColonSuffix (l : List Char) : Option (List Char) :=
  if l.contains ':' then some ((l.reverse.takeWhile (fun c => c != ':')).reverse)
  else none

def beforeParen (l : List Char) : List Char :=
  l.takeWhile (fun c => c != '(')

def extractPortFromLsofName (name : List Char) : Int :=
  let name := trimCutsetBrackets name
  match lastColonSuffix name with
  | none => 0
  | some portStr =>
    let portStr := beforeParen portStr
    match goAtoi (goTrimSpace portStr) with
    | none => 0
    | some port => if port ≤ 0 || port > 65535 then 0 else port

def extractPortFromAddr (addr : List Char) : Int :=
  match lastColonSuffix addr with
  | none => 0
  | some portStr =>
    match goAtoi portStr with
    | none => 0
    | some port => if port ≤ 0 || port > 65535 then 0 else port

/-- Modelled from the claim's words, for comparison with the source
functions: the port is the substring after the last `:`, stripped of a
trailing `(...)` annotation, accepted iff it parses as a positive integer
`≤ 65535`, and `0` otherwise.  (No bracket trimming, no whitespace
trimming: the claim mentions neither.) -/
def claimPortExtract (addr : List Char) : Int :=
  match lastColonSuffix addr with
  | none => 0
  | some sub =>
    match goAtoi (beforeParen sub) with
    | none => 0
    | some port => if 0 < port && port ≤ 65535 then port else 0

/-! ## Environment assembly (`prepareEnvironment`, `removeEnvVar`)

An environment is a list of `KEY=VALUE` entries, as in Go.  The inherited
environment (`os.Environ()`), the parsed env file (`loadEnvFile`) and the
parsed inline JSON (`parseEnvVarsJSON`) are parameters; the two Go maps are
passed as association lists (Go map iteration order is unspecified, and the
verified conclusions are independent of the fold order because every merge
first removes the key's entries with `removeEnvVar` and then appends).

`entryHasKey k e` is exactly the source's `strings.HasPrefix(e, k + "=")`
test used by `removeEnvVar` and by the final `PORT=` / `ENVIRONMENT=`
presence checks. -/

def entryHasKey (k e : List Char) : Bool :=
  (k ++ ['=']).isPrefixOf e

def mkEnvEntry (k v : List Char) : List Char :=
  k ++ '=' :: v

def removeEnvVar (env : List (List Char)) (k : List Char) : List (List Char) :=
  env.filter (fun e => !entryHasKey k e)

def mergeVars (env : List (List Char)) (vars : List (List Char × List Char)) :
    List (List Char) :=
  vars.foldl (fun acc kv => removeEnvVar acc kv.1 ++ [mkEnvEntry kv.1 kv.2]) env

def envHasKey (env : List (List Char)) (k : List Char) : Bool :=
  env.any (entryHasKey k)

def lookupEnv (env : List (List Char)) (k : List Char) : Option (List Char) :=
  (env.find? (entryHasKey k)).map (fun e => e.drop (k.length + 1))

def assocLookup (vars : List (List Char × List Char)) (k : List Char) :
    Option (List Char) :=
  (vars.find? (fun kv => kv.1 == k)).map (fun kv => kv.2)

def intChars (n : Int) : List Char :=
  (toString n).data

/-- The source's tail pattern for `PORT` and `ENVIRONMENT`: scan the
assembled environment for an entry with the key's `KEY=` prefix, and append
`KEY=value` only when none is present and the extra condition (`p.Port > 0`,
resp. `p.Environment != ""`) holds. -/
def appendIfAbsent (env : List (List Char)) (k v : List Char) (cond : Bool) :
    List (List Char) :=
  if !envHasKey env k && cond then env ++ [mkEnvEntry k v] else env

def prepareEnvironment (sysEnv : List (List Char))
    (fileVars jsonVars : List (List Char × List Char))
    (port : Int) (environment : List Char) : List (List Char) :=
  let env1 := mergeVars sysEnv fileVars
  let env2 := mergeVars env1 jsonVars
  let env3 := appendIfAbsent env2 "PORT".data (intChars port) (decide (0 < port))
  appendIfAbsent env3 "ENVIRONMENT".data environment (!environment.isEmpty)

/-! ## The OS environment and the probes (`IsServiceRunning` and friends)

`OsEnv` gives the ground truth the OS-level probes read: `alive pid` is
whether a real signal-0 would find the process, `hasChild pid` is whether
`pgrep -P pid` produces output, and the four port fields are the outcomes of
the four fallback probes in `isPortInUse` (`lsof -sTCP:LISTEN`, plain
`lsof`, `netstat -an` line scan, `ss -an` line scan). -/

structure OsEnv where
  alive : Int → Bool
  hasChild : Int → Bool
  lsofListen : Int → Bool
  lsofAny : Int → Bool
  netstatListen : Int → Bool
  ssListen : Int → Bool

/-- Semantics of Go's `os.Process.Signal` for a process handle obtained from
`os.FindProcess` / `exec.Cmd`: with a typed signal (`some s`, e.g. signal 0)
it succeeds exactly when the process is alive; with a nil `os.Signal`
interface (`none`) the `sig.(syscall.Signal)` type assertion inside
`os.(*Process).signal` fails and the call returns the error
`os: unsupported signal type` unconditionally.  Every probe in the source
passes `os.Signal(nil)`. -/
def processSignalOk (sig : Option Int) (aliveNow : Bool) : Bool :=
  match sig with
  | none => false
  | some _ => aliveNow

def isPortInUse (env : OsEnv) (port : Int) : Bool :=
  env.lsofListen port || env.lsofAny port || env.netstatListen port ||
  env.ssListen port

def hasChildProcesses (env : OsEnv) (parentPID : Int) : Bool :=
  env.hasChild parentPID

/-- The `p_id`/`port` columns read by `IsServiceRunning`'s DB query. -/
structure ProjRow where
  pid : Int
  port : Int
deriving Repr, DecidableEq

/-- `IsServiceRunning` from the source: the in-memory handle's child is
probed with `Process.Signal(os.Signal(nil))`; then, if the row loads, the
port probe (when `port > 0`), then the persisted-PID probe (again a nil
signal), then `pgrep -P` child detection (only when `p_id > 0`).
`handle` is the tracked child's PID when a `ProcessInfo` exists. -/
def IsServiceRunning (env : OsEnv) (handle : Option Int) (row : Option ProjRow) :
    Bool :=
  (match handle with
   | some hpid => processSignalOk none (env.alive hpid)
   | none => false) ||
  (match row with
   | none => false
   | some p =>
     (decide (0 < p.port) && isPortInUse env p.port) ||
     (decide (0 < p.pid) &&
       (processSignalOk none (env.alive p.pid) || hasChildProcesses env p.pid)))

/-- Modelled from the claim's words: liveness with a working signal-0 probe
(`processSignalOk (some 0)`), i.e. handle child answers signal 0, or the
declared port is in use, or the persisted PID answers signal 0, or the
persisted PID has a child process still running. -/
def claimedServiceLive (env : OsEnv) (handle : Option Int) (row : Option ProjRow) :
    Bool :=
  (match handle with
   | some hpid => processSignalOk (some 0) (env.alive hpid)
   | none => false) ||
  (match row with
   | none => false
   | some p =>
     (decide (0 < p.port) && isPortInUse env p.port) ||
     (decide (0 < p.pid) && processSignalOk (some 0) (env.alive p.pid)) ||
     (decide (0 < p.pid) && hasChildProcesses env p.pid))

/-! ## Stop and force-kill (`StopService`, `ForceKillService`)

The supervisor state visible to these operations: the service's DB row and
the optional in-memory handle (modelled by its child PID).  OS kill calls
and sleeps are side effects outside the record, and both operations always
reach their final `Updates` call once the row has loaded, so the embedding
returns the final persisted row.  `t` is the wall-clock instant written to
`stop_time`. -/

structure SupervisorState where
  row : Option ProjRecord
  handle : Option Int
deriving DecidableEq

def StopService (env : OsEnv) (t : Nat) (st : SupervisorState) :
    Except (List Char) Unit × SupervisorState :=
  match st.row with
  | none => (Except.error "project not found".data, st)
  | some p =>
    let processRunning := decide (0 < p.pid) && processSignalOk none (env.alive p.pid)
    if !processRunning && st.handle.isNone then
      (Except.ok (),
       { st with
         row := some { p with status := "stopped".data, stopTime := some t, pid := 0 } })
    else
      (Except.ok (),
       { row := some { p with status := "stopped".data, stopTime := some t, pid := 0 },
         handle := none })

def ForceKillService (env : OsEnv) (t : Nat) (st : SupervisorState) :
    Except (List Char) Unit × SupervisorState :=
  match st.row with
  | none => (Except.error "project not found".data, st)
  | some p =>
    (Except.ok (),
     { row := some { p with status := "stopped".data, stopTime := some t,
                            pid := 0, lastError := "Force killed".data },
       handle := none })

/-! ## Helper lemmas -/

theorem drop_append_left {α : Type} (l1 l2 : List α) (n : Nat) (h : n ≤ l1.length) :
    (l1 ++ l2).drop n = l1.drop n ++ l2 := by
  rw [List.drop_append_eq_append_drop]
  have h0 : n - l1.length = 0 := by omega
  simp [h0]

theorem mem_removeAllAux (pat : List Char) (fuel : Nat) :
    ∀ l, ∀ a ∈ removeAllAux pat l fuel, a ∈ l := by
  induction fuel with
  | zero => intro l a h; simpa [removeAllAux] using h
  | succ fuel ih =>
    intro l a h
    cases l with
    | nil => simpa [removeAllAux] using h
    | cons c cs =>
      by_cases hpre : pat.isPrefixOf (c :: cs)
      · rw [removeAllAux, if_pos hpre] at h
        exact List.mem_cons_of_mem c (List.drop_subset _ cs (ih _ a h))
      · rw [removeAllAux, if_neg hpre] at h
        rw [List.mem_cons] at h
        rcases h with h | h
        · simp [h]
        · exact List.mem_cons_of_mem c (ih _ a h)

theorem mem_removeAll (pat l : List Char) :
    ∀ a ∈ removeAll pat l, a ∈ l :=
  mem_removeAllAux pat l.length l

theorem not_mem_removeAllAux_single (c : Char) (fuel : Nat) :
    ∀ l : List Char, l.length ≤ fuel → c ∉ removeAllAux [c] l fuel := by
  induction fuel with
  | zero =>
    intro l hl
    have : l = [] := List.eq_nil_of_length_eq_zero (Nat.le_zero.mp hl)
    simp [this, removeAllAux]
  | succ fuel ih =>
    intro l hl
    cases l with
    | nil => simp [removeAllAux]
    | cons x xs =>
      by_cases hpre : ([c] : List Char).isPrefixOf (x :: xs)
      · rw [removeAllAux, if_pos hpre]
        have hxs : xs.length ≤ fuel := by
          simp at hl; omega
        simpa using ih xs hxs
      · rw [removeAllAux, if_neg hpre]
        have hne : c ≠ x := by
          intro hcx
          exact hpre (by simp [List.isPrefixOf, hcx])
        intro h
        rw [List.mem_cons] at h
        rcases h with h | h
        · exact hne h
        · have hxs : xs.length ≤ fuel := by
            simp at hl; omega
          exact ih xs hxs h

theorem not_mem_removeAll_single (c : Char) (l : List Char) :
    c ∉ removeAll [c] l :=
  not_mem_removeAllAux_single c l.length l (Nat.le_refl _)

theorem mem_stripCSIAux (pat : List Char) (fuel : Nat) :
    ∀ l, ∀ a ∈ stripCSIAux pat l fuel, a ∈ l := by
  induction fuel with
  | zero => intro l a h; simpa [stripCSIAux] using h
  | succ fuel ih =>
    intro l a h
    cases l with
    | nil => simpa [stripCSIAux] using h
    | cons c cs =>
      rw [stripCSIAux] at h
      cases hm : csiMatchLen pat (c :: cs) with
      | some n =>
        rw [hm] at h
        exact List.mem_cons_of_mem c (List.drop_subset _ cs (ih _ a h))
      | none =>
        rw [hm] at h
        rw [List.mem_cons] at h
        rcases h with h | h
        · simp [h]
        · exact List.mem_cons_of_mem c (ih _ a h)

theorem mem_stripCSI (pat l : List Char) :
    ∀ a ∈ stripCSI pat l, a ∈ l :=
  mem_stripCSIAux pat l.length l

theorem mem_stripBareAux (fuel : Nat) :
    ∀ l, ∀ a ∈ stripBareAux l fuel, a ∈ l := by
  induction fuel with
  | zero => intro l a h; simpa [stripBareAux] using h
  | succ fuel ih =>
    intro l a h
    cases l with
    | nil => simpa [stripBareAux] using h
    | cons c cs =>
      rw [stripBareAux] at h
      cases hm : bareMatchLen (c :: cs) with
      | some n =>
        rw [hm] at h
        exact List.mem_cons_of_mem c (List.drop_subset _ cs (ih _ a h))
      | none =>
        rw [hm] at h
        rw [List.mem_cons] at h
        rcases h with h | h
        · simp [h]
        · exact List.mem_cons_of_mem c (ih _ a h)

theorem mem_stripBare (l : List Char) :
    ∀ a ∈ stripBare l, a ∈ l :=
  mem_stripBareAux l.length l

theorem mem_collapseSpaceAux (fuel : Nat) :
    ∀ l, ∀ a ∈ collapseSpaceAux l fuel, a ∈ l ∨ a = ' ' := by
  induction fuel with
  | zero => intro l a h; left; simpa [collapseSpaceAux] using h
  | succ fuel ih =>
    intro l a h
    cases l with
    | nil => left; simpa [collapseSpaceAux] using h
    | cons c cs =>
      by_cases hsp : isRe2Space c
      · rw [collapseSpaceAux, if_pos hsp] at h
        rw [List.mem_cons] at h
        rcases h with h | h
        · right; exact h
        · rcases ih _ a h with h2 | h2
          · left
            exact List.mem_cons_of_mem c ((List.dropWhile_sublist isRe2Space).subset h2)
          · right; exact h2
      · rw [collapseSpaceAux, if_neg hsp] at h
        rw [List.mem_cons] at h
        rcases h with h | h
        · left; simp [h]
        · rcases ih _ a h with h2 | h2
          · left; exact List.mem_cons_of_mem c h2
          · right; exact h2

theorem mem_collapseSpace (l : List Char) :
    ∀ a ∈ collapseSpace l, a ∈ l ∨ a = ' ' :=
  mem_collapseSpaceAux l.length l

theorem mem_goTrimSpace (l : List Char) :
    ∀ a ∈ goTrimSpace l, a ∈ l := by
  intro a h
  unfold goTrimSpace at h
  rw [List.mem_reverse] at h
  have h1 := (List.dropWhile_sublist isGoSpace).subset h
  rw [List.mem_reverse] at h1
  exact (List.dropWhile_sublist isGoSpace).subset h1

theorem stripANSI_no_escChar (s : List Char) : escChar ∉ stripANSI s := by
  intro h
  unfold stripANSI at h
  have h1 := mem_goTrimSpace _ escChar h
  rcases mem_collapseSpace _ escChar h1 with h2 | h2
  · have h3 := mem_stripBare _ escChar h2
    have h4 := mem_removeAll _ _ escChar h3
    have h5 := mem_removeAll _ _ escChar h4
    exact not_mem_removeAll_single escChar _ h5
  · exact absurd h2 (by decide)

theorem self_mem_addToLogBuffer (buf : List (List Char)) (line : List Char) :
    line ∈ addToLogBuffer buf line := by
  unfold addToLogBuffer
  by_cases h : (buf ++ [line]).length > maxBufferSize
  · rw [if_pos h]
    have hlen : (buf ++ [line]).length = buf.length + 1 := by simp
    have hle : (buf ++ [line]).length - maxBufferSize ≤ buf.length := by
      unfold maxBufferSize at *; omega
    rw [drop_append_left buf [line] _ hle]
    simp
  · rw [if_neg h]
    simp

theorem foldl_addToLogBuffer_eq (lines : List (List Char)) :
    lines.foldl addToLogBuffer [] = lines.drop (lines.length - maxBufferSize) := by
  induction lines using List.reverseRecOn with
  | nil => simp
  | append_singleton xs x ih =>
    rw [List.foldl_append, List.foldl_cons, List.foldl_nil, ih]
    unfold addToLogBuffer maxBufferSize
    by_cases hL : xs.length < 1000
    · have hk : xs.length - 1000 = 0 := by omega
      rw [hk, List.drop_zero]
      have hlen : (xs ++ [x]).length = xs.length + 1 := by simp
      rw [if_neg (by simp [maxBufferSize]; omega)]
      have hk2 : (xs ++ [x]).length - 1000 = 0 := by simp; omega
      rw [hk2, List.drop_zero]
    · have hnl : ¬ xs.length < 1000 := hL
      have hdlen : (xs.drop (xs.length - 1000)).length = 1000 := by
        simp; omega
      have hblen : (xs.drop (xs.length - 1000) ++ [x]).length = 1001 := by
        simp; omega
      rw [if_pos (by rw [hblen]; simp [maxBufferSize])]
      rw [hblen]
      have h1 : (1001 : Nat) - 1000 = 1 := by norm_num
      rw [h1]
      rw [drop_append_left _ [x] 1 (by omega)]
      have h2 : (xs.drop (xs.length - 1000)).drop 1 = xs.drop (1 + (xs.length - 1000)) := by
        rw [List.drop_drop, Nat.add_comm]
      rw [h2]
      have h3 : (xs ++ [x]).length - 1000 = 1 + (xs.length - 1000) := by simp; omega
      rw [h3]
      rw [drop_append_left _ [x] _ (by omega)]

/-! ## Claim C6: the log ring is bounded and keeps the most recent lines -/

/-- C6: for every sequence of appended lines, the ring built by
`addToLogBuffer` (starting from the empty buffer a new `ProcessInfo`
carries) never exceeds 1000 lines, and it is exactly the suffix of the most
recently appended lines: once 1000 lines have been appended, exactly the
1000 most recent remain, oldest evicted first.  (`addToLogBuffer` is a pure
slice manipulation under the handle's mutex; it performs no channel
operation, so it cannot block.) -/
theorem addToLogBuffer_ring_bound (lines : List (List Char)) :
    (lines.foldl addToLogBuffer []).length ≤ maxBufferSize ∧
    lines.foldl addToLogBuffer [] = lines.drop (lines.length - maxBufferSize) := by
  refine ⟨?_, foldl_addToLogBuffer_eq lines⟩
  rw [foldl_addToLogBuffer_eq lines]
  simp [maxBufferSize]
  omega

/-! ## Claim C9: empty log snapshots are never written -/

/-- C9: persisting a log snapshot with an empty line list performs no
catalog write at all (`saveLogsToDatabase` returns before marshalling), so
the persisted `logs` column is never overwritten with an empty array; a
non-empty snapshot is marshalled to JSON and written to the `logs` column
only, every other column of the record being left unchanged. -/
theorem saveLogsToDatabase_frame (rec : ProjRecord) (logs : List (List Char)) :
    (logs = [] → saveLogsToDatabase rec logs = rec) ∧
    (saveLogsToDatabase rec logs).status = rec.status ∧
    (saveLogsToDatabase rec logs).pid = rec.pid ∧
    (saveLogsToDatabase rec logs).stopTime = rec.stopTime ∧
    (saveLogsToDatabase rec logs).lastError = rec.lastError ∧
    (logs ≠ [] →
      (saveLogsToDatabase rec logs).logs = some (encodeJSONStringArray logs)) := by
  unfold saveLogsToDatabase
  rcases logs with _ | ⟨l, ls⟩ <;> simp

/-- Witness for C9 at a concrete record and both an empty and a non-empty
snapshot. -/
theorem saveLogsToDatabase_frame_witness :
    (([] : List (List Char)) = [] →
      saveLogsToDatabase ⟨"running".data, 7, none, [], none⟩ [] =
        ⟨"running".data, 7, none, [], none⟩) ∧
    (saveLogsToDatabase ⟨"running".data, 7, none, [], none⟩ []).status = "running".data ∧
    (saveLogsToDatabase ⟨"running".data, 7, none, [], none⟩ []).pid = 7 ∧
    (saveLogsToDatabase ⟨"running".data, 7, none, [], none⟩ []).stopTime = none ∧
    (saveLogsToDatabase ⟨"running".data, 7, none, [], none⟩ []).lastError = [] ∧
    (([] : List (List Char)) ≠ [] →
      (saveLogsToDatabase ⟨"running".data, 7, none, [], none⟩ []).logs =
        some (encodeJSONStringArray [])) :=
  saveLogsToDatabase_frame ⟨"running".data, 7, none, [], none⟩ []

/-! ## Claim C10: whitespace-only commands crash `prepareCommand` -/

/-- C10 (failing input): for the non-empty, whitespace-only command `" "`,
`strings.Fields` returns an empty slice and the source's `parts[0]` indexing
panics (modelled by `none`); the claim that the indexing is always in
bounds for non-empty commands is false on the code. -/
theorem prepareCommand_whitespace_panics :
    prepareCommand " ".data [] "backend".data = none ∧ " ".data ≠ [] := by
  constructor
  · rfl
  · decide

/-! ## Claim C1: the nil-signal probe defeats the liveness check -/

/-- An OS in which PID 42 is alive and answers a true signal-0 probe, no
process has children, and no port probe succeeds. -/
def probeEnv : OsEnv :=
  { alive := fun p => p == 42
    hasChild := fun _ => false
    lsofListen := fun _ => false
    lsofAny := fun _ => false
    netstatListen := fun _ => false
    ssListen := fun _ => false }

/-- C1 (failing input): with a tracked handle whose child PID 42 is alive,
persisted PID 42 alive, and no port declared, `IsServiceRunning` returns
`false` — every probe in the source calls `proc.Signal(os.Signal(nil))`,
which always returns the error `os: unsupported signal type` — while the
claimed liveness disjunction (with a real signal-0 probe) is `true`. -/
theorem isServiceRunning_nil_signal_divergence :
    IsServiceRunning probeEnv (some 42) (some { pid := 42, port := 0 }) = false ∧
    claimedServiceLive probeEnv (some 42) (some { pid := 42, port := 0 }) = true :=
  ⟨rfl, rfl⟩

/-! ## Claim C3: force kill always persists the stopped record -/

/-- C3: for every project id present in the catalog, `ForceKillService`
returns success and leaves the persisted record with `status = "stopped"`,
`pid = 0`, `last_error = "Force killed"` and the stop timestamp recorded,
with any in-memory handle cancelled and removed — for every OS state,
whether or not a handle was tracked, and whether or not the persisted PID is
alive. -/
theorem forceKillService_ok (env : OsEnv) (t : Nat) (st : SupervisorState)
    (p : ProjRecord) (hrow : st.row = some p) :
    (ForceKillService env t st).1 = Except.ok () ∧
    (ForceKillService env t st).2.row =
      some { p with status := "stopped".data, stopTime := some t, pid := 0,
                    lastError := "Force killed".data } ∧
    (ForceKillService env t st).2.handle = none := by
  unfold ForceKillService
  rw [hrow]
  exact ⟨rfl, rfl, rfl⟩

/-- The OS in which every probe fails and no process is alive. -/
def deadEnv : OsEnv :=
  { alive := fun _ => false
    hasChild := fun _ => false
    lsofListen := fun _ => false
    lsofAny := fun _ => false
    netstatListen := fun _ => false
    ssListen := fun _ => false }

/-- Witness for C3: a concrete state with a tracked handle and a record
whose PID points at no live process. -/
theorem forceKillService_ok_witness :
    (ForceKillService deadEnv 9 ⟨some ⟨"running".data, 314, none, [], none⟩, some 314⟩).1 =
      Except.ok () ∧
    (ForceKillService deadEnv 9 ⟨some ⟨"running".data, 314, none, [], none⟩, some 314⟩).2.row =
      some { (⟨"running".data, 314, none, [], none⟩ : ProjRecord) with
             status := "stopped".data, stopTime := some 9, pid := 0,
             lastError := "Force killed".data } ∧
    (ForceKillService deadEnv 9 ⟨some ⟨"running".data, 314, none, [], none⟩, some 314⟩).2.handle =
      none :=
  forceKillService_ok deadEnv 9 _ _ rfl

/-! ## Claim C4: stop is a success and idempotent on a stopped service -/

/-- C4: when no in-memory handle exists and the persisted PID does not
answer a liveness probe, `StopService` returns success and persists
`status = "stopped"` with the PID zeroed and the stop timestamp recorded;
running `StopService` again on the resulting state is again a success with
the same persisted shape, so stop is idempotent on a stopped service. -/
theorem stopService_idempotent (env : OsEnv) (t1 t2 : Nat) (st : SupervisorState)
    (p : ProjRecord) (hrow : st.row = some p) (hhandle : st.handle = none)
    (hdead : env.alive p.pid = false) :
    (StopService env t1 st).1 = Except.ok () ∧
    (StopService env t1 st).2.row =
      some { p with status := "stopped".data, stopTime := some t1, pid := 0 } ∧
    (StopService env t1 st).2.handle = none ∧
    (StopService env t2 (StopService env t1 st).2).1 = Except.ok () ∧
    (StopService env t2 (StopService env t1 st).2).2.row =
      some { p with status := "stopped".data, stopTime := some t2, pid := 0 } := by
  have h1 : StopService env t1 st =
      (Except.ok (),
       ⟨some { p with status := "stopped".data, stopTime := some t1, pid := 0 },
        st.handle⟩) := by
    unfold StopService
    rw [hrow]
    simp [processSignalOk, hhandle]
  rw [h1]
  refine ⟨rfl, rfl, hhandle, ?_, ?_⟩ <;>
  · unfold StopService
    simp [processSignalOk, hhandle]

/-- Witness for C4 at a concrete stopped-but-stale record. -/
theorem stopService_idempotent_witness :
    (StopService deadEnv 3 ⟨some ⟨"running".data, 555, none, [], none⟩, none⟩).1 =
      Except.ok () ∧
    (StopService deadEnv 3 ⟨some ⟨"running".data, 555, none, [], none⟩, none⟩).2.row =
      some { (⟨"running".data, 555, none, [], none⟩ : ProjRecord) with
             status := "stopped".data, stopTime := some 3, pid := 0 } ∧
    (StopService deadEnv 3 ⟨some ⟨"running".data, 555, none, [], none⟩, none⟩).2.handle =
      none ∧
    (StopService deadEnv 4
      (StopService deadEnv 3 ⟨some ⟨"running".data, 555, none, [], none⟩, none⟩).2).1 =
      Except.ok () ∧
    (StopService deadEnv 4
      (StopService deadEnv 3 ⟨some ⟨"running".data, 555, none, [], none⟩, none⟩).2).2.row =
      some { (⟨"running".data, 555, none, [], none⟩ : ProjRecord) with
             status := "stopped".data, stopTime := some 4, pid := 0 } :=
  stopService_idempotent deadEnv 3 4 _ _ rfl rfl rfl

/-! ## Claim C8: port extraction -/

/-- Modelled from the amended claim: for the lsof NAME form the string is
first trimmed of `[`/`]` at both ends, the port is the substring after the
last `:`, truncated at the first `(` and whitespace-trimmed; accepted iff it
parses as a positive integer `≤ 65535`, else 0. -/
def amendedLsofPort (s : List Char) : Int :=
  match lastColonSuffix (trimCutsetBrackets s) with
  | none => 0
  | some sub =>
    match goAtoi (goTrimSpace (beforeParen sub)) with
    | none => 0
    | some n => if 0 < n && n ≤ 65535 then n else 0

/-- Modelled from the amended claim: for the plain address form the port is
the raw substring after the last `:` (no annotation stripping, no
trimming); accepted iff it parses as a positive integer `≤ 65535`, else 0. -/
def amendedAddrPort (s : List Char) : Int :=
  match lastColonSuffix s with
  | none => 0
  | some sub =>
    match goAtoi sub with
    | none => 0
    | some n => if 0 < n && n ≤ 65535 then n else 0

theorem extractPortFromLsofName_eq (s : List Char) :
    extractPortFromLsofName s = amendedLsofPort s := by
  simp only [extractPortFromLsofName, amendedLsofPort]
  cases h : lastColonSuffix (trimCutsetBrackets s) with
  | none => rfl
  | some sub =>
    dsimp only
    cases h2 : goAtoi (goTrimSpace (beforeParen sub)) with
    | none => rfl
    | some n =>
      dsimp only
      split <;> split <;> simp_all <;> omega

theorem extractPortFromAddr_eq (s : List Char) :
    extractPortFromAddr s = amendedAddrPort s := by
  simp only [extractPortFromAddr, amendedAddrPort]
  cases h : lastColonSuffix s with
  | none => rfl
  | some sub =>
    dsimp only
    cases h2 : goAtoi sub with
    | none => rfl
    | some n =>
      dsimp only
      split <;> split <;> simp_all <;> omega

theorem amendedLsofPort_range (s : List Char) :
    amendedLsofPort s = 0 ∨ (0 < amendedLsofPort s ∧ amendedLsofPort s ≤ 65535) := by
  simp only [amendedLsofPort]
  cases h : lastColonSuffix (trimCutsetBrackets s) with
  | none => left; rfl
  | some sub =>
    dsimp only
    cases h2 : goAtoi (goTrimSpace (beforeParen sub)) with
    | none => left; rfl
    | some n =>
      dsimp only
      split <;> simp_all

theorem amendedAddrPort_range (s : List Char) :
    amendedAddrPort s = 0 ∨ (0 < amendedAddrPort s ∧ amendedAddrPort s ≤ 65535) := by
  simp only [amendedAddrPort]
  cases h : lastColonSuffix s with
  | none => left; rfl
  | some sub =>
    dsimp only
    cases h2 : goAtoi sub with
    | none => left; rfl
    | some n =>
      dsimp only
      split <;> simp_all

/-- C8 (counterexample): the claim, read as stated — the port is the
substring after the last `:` with a trailing `(...)` annotation stripped,
rejected iff it does not parse as a positive integer `≤ 65535` — is false
on both source functions: `extractPortFromLsofName "[::1]"` returns 1
although the substring after the last colon, `"1]"`, does not parse
(brackets are trimmed first); `extractPortFromAddr "*:80(LISTEN)"` returns
0 although the claim's pipeline yields 80 (no annotation stripping is
performed in this function). -/
theorem extractPort_claim_counterexample :
    extractPortFromLsofName "[::1]".data = 1 ∧
    claimPortExtract "[::1]".data = 0 ∧
    extractPortFromAddr "*:80(LISTEN)".data = 0 ∧
    claimPortExtract "*:80(LISTEN)".data = 80 := by
  refine ⟨?_, ?_, ?_, ?_⟩ <;> decide

/-- C8 (amended): `extractPortFromLsofName` equals the claim's pipeline
applied after bracket trimming and with `(`-truncation plus whitespace
trimming of the port substring; `extractPortFromAddr` equals the claim's
pipeline without any annotation stripping; both return 0 or a value in
`[1, 65535]`, never any other out-of-range value. -/
theorem extractPort_characterization (s : List Char) :
    extractPortFromLsofName s = amendedLsofPort s ∧
    extractPortFromAddr s = amendedAddrPort s ∧
    (extractPortFromLsofName s = 0 ∨
      (0 < extractPortFromLsofName s ∧ extractPortFromLsofName s ≤ 65535)) ∧
    (extractPortFromAddr s = 0 ∨
      (0 < extractPortFromAddr s ∧ extractPortFromAddr s ≤ 65535)) := by
  refine ⟨extractPortFromLsofName_eq s, extractPortFromAddr_eq s, ?_, ?_⟩
  · rw [extractPortFromLsofName_eq s]
    exact amendedLsofPort_range s
  · rw [extractPortFromAddr_eq s]
    exact amendedAddrPort_range s

/-! ## Claim C5: ANSI stripping and empty-line discard -/

/-- C5 (counterexample): the claim that the stripped output contains no bare
`[digits;letter]` residue is false on the code.  The bare-residue regex of
the source only removes sequences ending in `m`, so `stripANSI "[31K"`
returns `"[31K"` unchanged; and because Go's `ReplaceAllString` performs a
single left-to-right pass, `stripANSI "[3[12m1m"` returns `"[31m"`, a
residue even of the `m` form. -/
theorem stripANSI_residue_counterexample :
    stripANSI "[31K".data = "[31K".data ∧
    containsBareResidue (stripANSI "[31K".data) = true ∧
    stripANSI "[3[12m1m".data = "[31m".data ∧
    containsBareResidue (stripANSI "[3[12m1m".data) = true := by
  refine ⟨?_, ?_, ?_, ?_⟩ <;> decide

/-- C5 (amended): for every input line, the stripped output contains no ESC
(`U+001B`) character — bare residues are only removed for sequences ending
in `m`, in a single pass — and a line whose stripped form is empty is
discarded by the log capturer: the capture step leaves the ring and the
live channel exactly unchanged. -/
theorem stripANSI_no_esc_and_empty_discarded (s line : List Char) (b : Bool)
    (st : CaptureState) :
    escChar ∉ stripANSI s ∧ (stripANSI line = [] → captureLine b st line = st) := by
  refine ⟨stripANSI_no_escChar s, fun h => ?_⟩
  simp [captureLine, h]

/-- Witness for C5 at a clear-screen escape sequence, whose stripped form is
empty. -/
theorem stripANSI_no_esc_and_empty_discarded_witness :
    stripANSI "\x1b[2J".data = [] ∧
    captureLine false ⟨[], [], false⟩ "\x1b[2J".data = ⟨[], [], false⟩ :=
  ⟨by decide,
   (stripANSI_no_esc_and_empty_discarded [] "\x1b[2J".data false ⟨[], [], false⟩).2
     (by decide)⟩

/-! ## Claim C7: lines emitted on the live channel are in the ring -/

/-- C7: every log line the capturer emits on the live channel has already
been appended to the ring at the moment of emission, and when the channel
buffer is full the send is dropped without blocking while the line is still
retained in the ring. -/
theorem captureLine_emitted_in_ring (b : Bool) (st : CaptureState) (line : List Char) :
    (∀ x, (captureLine b st line).chan = st.chan ++ [x] →
      x ∈ (captureLine b st line).ring) ∧
    (st.chanClosed = false → chanCapacity ≤ st.chan.length → stripANSI line ≠ [] →
      (captureLine b st line).chan = st.chan ∧
      (if b then errTag ++ stripANSI line else stripANSI line) ∈
        (captureLine b st line).ring) := by
  by_cases hcl : stripANSI line = []
  · constructor
    · intro x hx
      simp [captureLine, hcl] at hx
    · intro _ _ hne
      exact absurd hcl hne
  · have hdef : captureLine b st line =
        (safeSendLog
          { st with ring := addToLogBuffer st.ring
                      (if b then errTag ++ stripANSI line else stripANSI line) }
          (if b then errTag ++ stripANSI line else stripANSI line)).1 := by
      simp [captureLine, hcl]
    constructor
    · intro x hx
      rw [hdef] at hx ⊢
      unfold safeSendLog at hx ⊢
      by_cases hclosed : st.chanClosed
      · simp [hclosed] at hx
      · by_cases hfull : chanCapacity ≤ st.chan.length
        · simp [hclosed, hfull] at hx
        · simp [hclosed, hfull] at hx ⊢
          rw [← hx]
          exact self_mem_addToLogBuffer _ _
    · intro hclosed hfull _
      rw [hdef]
      unfold safeSendLog
      simp [hclosed, hfull]
      exact self_mem_addToLogBuffer _ _

/-- Witness for C7: a full channel (1000 pending lines) drops the send while
the ring retains the line. -/
theorem captureLine_emitted_in_ring_witness :
    (captureLine false ⟨[], List.replicate 1000 [], false⟩ "hi".data).chan =
      (⟨[], List.replicate 1000 [], false⟩ : CaptureState).chan ∧
    "hi".data ∈ (captureLine false ⟨[], List.replicate 1000 [], false⟩ "hi".data).ring := by
  have h := (captureLine_emitted_in_ring false ⟨[], List.replicate 1000 [], false⟩
    "hi".data).2 (by rfl) (by rw [List.length_replicate]; decide) (by decide)
  refine ⟨h.1, ?_⟩
  have h2 := h.2
  rw [if_neg] at h2
  · exact h2
  · decide

/-! ## Claim C2: lemmas on environment entries and merging -/

theorem key_eq_of_entry_extension (k1 k2 : List Char) (h2 : '=' ∉ k2)
    (hp : List.IsPrefix (k1 ++ ['=']) (k2 ++ ['='])) : k1 = k2 := by
  by_cases hll : k1.length = k2.length
  · have heq := List.IsPrefix.eq_of_length hp (by simp [hll])
    exact List.append_cancel_right heq
  · exfalso
    have hlen : k1.length + 1 ≤ k2.length + 1 := by simpa using hp.length_le
    have hlt : k1.length < k2.length := by omega
    have htake := List.prefix_iff_eq_take.mp hp
    have htk : (k2 ++ ['=']).take ((k1 ++ ['=']).length) = k2.take (k1.length + 1) := by
      rw [List.take_append_eq_append_take]
      have hz : (k1 ++ ['=']).length - k2.length = 0 := by simp; omega
      simp [hz]
      omega
    have hmem : '=' ∈ k2.take (k1.length + 1) := by
      rw [← htk, ← htake]
      simp
    exact h2 (List.take_subset _ _ hmem)

theorem entryHasKey_key_eq (k1 k2 e : List Char) (h1 : '=' ∉ k1) (h2 : '=' ∉ k2)
    (e1 : entryHasKey k1 e = true) (e2 : entryHasKey k2 e = true) : k1 = k2 := by
  rw [entryHasKey] at e1 e2
  rw [List.isPrefixOf_iff_prefix] at e1 e2
  rcases List.prefix_or_prefix_of_prefix e1 e2 with hp | hp
  · exact key_eq_of_entry_extension k1 k2 h2 hp
  · exact (key_eq_of_entry_extension k2 k1 h1 hp).symm

theorem entryHasKey_mkEnvEntry_self (k v : List Char) :
    entryHasKey k (mkEnvEntry k v) = true := by
  rw [entryHasKey, List.isPrefixOf_iff_prefix, mkEnvEntry]
  exact ⟨v, by simp⟩

theorem entryHasKey_mkEnvEntry_ne (k k0 v : List Char) (hk : '=' ∉ k)
    (hk0 : '=' ∉ k0) (hne : k ≠ k0) :
    entryHasKey k (mkEnvEntry k0 v) = false := by
  cases hek : entryHasKey k (mkEnvEntry k0 v) with
  | false => rfl
  | true =>
    exact absurd (entryHasKey_key_eq k k0 _ hk hk0 hek (entryHasKey_mkEnvEntry_self k0 v))
      hne

theorem mkEnvEntry_value (k v : List Char) :
    (mkEnvEntry k v).drop (k.length + 1) = v := by
  rw [mkEnvEntry]
  have h1 : (k ++ '=' :: v).drop (k.length + 1) = ((k ++ '=' :: v).drop k.length).drop 1 := by
    rw [List.drop_drop, Nat.add_comm k.length 1]
  rw [h1, List.drop_left]
  rfl

theorem find?_removeEnvVar_self (env : List (List Char)) (k : List Char) :
    (removeEnvVar env k).find? (entryHasKey k) = none := by
  rw [removeEnvVar, List.find?_eq_none]
  intro e he
  have h2 := (List.mem_filter.mp he).2
  simp at h2
  simp [h2]

theorem find?_removeEnvVar_ne (env : List (List Char)) (k k0 : List Char)
    (hk : '=' ∉ k) (hk0 : '=' ∉ k0) (hne : k ≠ k0) :
    (removeEnvVar env k0).find? (entryHasKey k) = env.find? (entryHasKey k) := by
  induction env with
  | nil => rfl
  | cons e rest ih =>
    rw [removeEnvVar] at ih ⊢
    by_cases he0 : entryHasKey k0 e
    · have hek : entryHasKey k e = false := by
        cases hek : entryHasKey k e with
        | false => rfl
        | true => exact absurd (entryHasKey_key_eq k k0 e hk hk0 hek he0) hne
      rw [List.filter_cons_of_neg (by simp [he0])]
      rw [List.find?_cons_of_neg _ (by simp [hek])]
      exact ih
    · rw [List.filter_cons_of_pos (by simp [he0])]
      by_cases hek : entryHasKey k e
      · rw [List.find?_cons_of_pos _ hek, List.find?_cons_of_pos _ hek]
      · rw [List.find?_cons_of_neg _ (by simp [hek]), List.find?_cons_of_neg _ (by simp [hek])]
        exact ih

theorem envHasKey_eq_isSome (env : List (List Char)) (k : List Char) :
    envHasKey env k = (lookupEnv env k).isSome := by
  rw [envHasKey, lookupEnv]
  induction env with
  | nil => rfl
  | cons e rest ih =>
    by_cases he : entryHasKey k e
    · simp [List.any_cons, he, List.find?_cons_of_pos _ he]
    · rw [List.find?_cons_of_neg _ (by simp [he])]
      simp [List.any_cons, he]
      simpa using ih

theorem lookupEnv_append_ne (env : List (List Char)) (k k0 v : List Char)
    (hk : '=' ∉ k) (hk0 : '=' ∉ k0) (hne : k ≠ k0) :
    lookupEnv (env ++ [mkEnvEntry k0 v]) k = lookupEnv env k := by
  rw [lookupEnv, lookupEnv, List.find?_append]
  have hone : ([mkEnvEntry k0 v] : List (List Char)).find? (entryHasKey k) = none := by
    rw [List.find?_eq_none]
    intro e he
    rw [List.mem_singleton] at he
    simp [he, entryHasKey_mkEnvEntry_ne k k0 v hk hk0 hne]
  rw [hone]
  simp

theorem lookupEnv_append_self (env : List (List Char)) (k v : List Char)
    (h : envHasKey env k = false) :
    lookupEnv (env ++ [mkEnvEntry k v]) k = some v := by
  rw [lookupEnv, List.find?_append]
  have hnone : env.find? (entryHasKey k) = none := by
    rw [List.find?_eq_none]
    intro e he
    have h2 : entryHasKey k e = false := by
      have := List.any_eq_false.mp h e he
      simpa using this
    simp [h2]
  rw [hnone]
  have hone : ([mkEnvEntry k v] : List (List Char)).find? (entryHasKey k) =
      some (mkEnvEntry k v) := by
    rw [List.find?_cons_of_pos _ (entryHasKey_mkEnvEntry_self k v)]
  simp [hone, mkEnvEntry_value]

theorem lookupEnv_mergeVars (vars : List (List Char × List Char)) :
    ∀ (env : List (List Char)) (k : List Char), '=' ∉ k →
      (∀ p ∈ vars, '=' ∉ p.1) → (vars.map Prod.fst).Nodup →
      lookupEnv (mergeVars env vars) k = (assocLookup vars k).or (lookupEnv env k) := by
  induction vars with
  | nil =>
    intro env k _ _ _
    simp [mergeVars, assocLookup]
  | cons p rest ih =>
    intro env k hk hkeys hnd
    have hp1 : '=' ∉ p.1 := hkeys p (List.mem_cons_self p rest)
    have hrest_keys : ∀ q ∈ rest, '=' ∉ q.1 := fun q hq => hkeys q (List.mem_cons_of_mem p hq)
    rw [List.map_cons, List.nodup_cons] at hnd
    have hstep : mergeVars env (p :: rest) =
        mergeVars (removeEnvVar env p.1 ++ [mkEnvEntry p.1 p.2]) rest := by
      rw [mergeVars, mergeVars, List.foldl_cons]
    rw [hstep, ih _ k hk hrest_keys hnd.2]
    by_cases hkp : k = p.1
    · subst hkp
      have har : assocLookup rest p.1 = none := by
        rw [assocLookup]
        have hfn : rest.find? (fun kv => kv.1 == p.1) = none := by
          rw [List.find?_eq_none]
          intro kv hkv hbeq
          rw [beq_iff_eq] at hbeq
          exact hnd.1 (hbeq ▸ List.mem_map_of_mem Prod.fst hkv)
        simp [hfn]
      have hac : assocLookup (p :: rest) p.1 = some p.2 := by
        rw [assocLookup, List.find?_cons_of_pos _ (by simp)]
        rfl
      rw [har, hac]
      rw [Option.none_or]
      rw [lookupEnv, List.find?_append, find?_removeEnvVar_self]
      rw [Option.none_or]
      rw [List.find?_cons_of_pos _ (entryHasKey_mkEnvEntry_self p.1 p.2)]
      simp [mkEnvEntry_value]
    · have hac : assocLookup (p :: rest) k = assocLookup rest k := by
        rw [assocLookup, assocLookup, List.find?_cons_of_neg]
        simp
        exact fun h => absurd h.symm hkp
      rw [hac]
      cases har : assocLookup rest k with
      | some v => simp
      | none =>
        rw [Option.none_or, Option.none_or]
        rw [lookupEnv, List.find?_append, find?_removeEnvVar_ne env k p.1 hk hp1 hkp]
        have hone : ([mkEnvEntry p.1 p.2] : List (List Char)).find? (entryHasKey k) = none := by
          rw [List.find?_eq_none]
          intro e he
          rw [List.mem_singleton] at he
          simp [he, entryHasKey_mkEnvEntry_ne k p.1 p.2 hk hp1 hkp]
        rw [hone]
        rw [lookupEnv]
        simp

theorem lookupEnv_appendIfAbsent_ne (env : List (List Char)) (k v : List Char)
    (cond : Bool) (k' : List Char) (hk' : '=' ∉ k') (hk : '=' ∉ k) (hne : k' ≠ k) :
    lookupEnv (appendIfAbsent env k v cond) k' = lookupEnv env k' := by
  rw [appendIfAbsent]
  split
  · exact lookupEnv_append_ne env k' k v hk' hk hne
  · rfl

theorem lookupEnv_appendIfAbsent_self (env : List (List Char)) (k v : List Char)
    (cond : Bool) :
    lookupEnv (appendIfAbsent env k v cond) k =
      (lookupEnv env k).or (if cond then some v else none) := by
  rw [appendIfAbsent]
  cases hc : cond with
  | false =>
    rw [if_neg (by simp)]
    simp
  | true =>
    by_cases h : envHasKey env k
    · rw [if_neg (by simp [h])]
      have hs : (lookupEnv env k).isSome := by rw [← envHasKey_eq_isSome, h]
      cases hfind : lookupEnv env k with
      | some a => simp
      | none => rw [hfind] at hs; simp at hs
    · rw [if_pos (by simp [h])]
      rw [lookupEnv_append_self env k v (by simpa using h)]
      have hsf : (lookupEnv env k).isSome = false := by
        rw [← envHasKey_eq_isSome]
        simpa using h
      have hnone : lookupEnv env k = none := by
        cases hfind : lookupEnv env k with
        | none => rfl
        | some a => rw [hfind] at hsf; simp at hsf
      simp [hnone]

/-- C2: environment precedence.  In the child environment assembled by
`prepareEnvironment`, inline env-JSON entries override same-named env-file
entries, which override same-named inherited entries (`Option.or` chains
read left to right); afterwards `PORT=<port>` is present exactly when some
layer set `PORT` (with that layer's value) or no layer set it and the
definition's port is positive, and `ENVIRONMENT=<tag>` is present exactly
when some layer set `ENVIRONMENT` or none did and a tag is declared.  The
hypotheses state that the Go map keys are unique and that keys contain no
`=` (Go env-file keys cannot; a key containing `=` could not round-trip
through the `KEY=VALUE` entry encoding). -/
theorem prepareEnvironment_precedence
    (sysEnv : List (List Char)) (fileVars jsonVars : List (List Char × List Char))
    (port : Int) (environment : List Char)
    (hfk : ∀ p ∈ fileVars, '=' ∉ p.1) (hjk : ∀ p ∈ jsonVars, '=' ∉ p.1)
    (hfn : (fileVars.map Prod.fst).Nodup) (hjn : (jsonVars.map Prod.fst).Nodup) :
    (∀ k, '=' ∉ k → k ≠ "PORT".data → k ≠ "ENVIRONMENT".data →
      lookupEnv (prepareEnvironment sysEnv fileVars jsonVars port environment) k =
        (assocLookup jsonVars k).or ((assocLookup fileVars k).or (lookupEnv sysEnv k))) ∧
    lookupEnv (prepareEnvironment sysEnv fileVars jsonVars port environment) "PORT".data =
      ((assocLookup jsonVars "PORT".data).or ((assocLookup fileVars "PORT".data).or
        (lookupEnv sysEnv "PORT".data))).or
        (if 0 < port then some (intChars port) else none) ∧
    lookupEnv (prepareEnvironment sysEnv fileVars jsonVars port environment)
        "ENVIRONMENT".data =
      ((assocLookup jsonVars "ENVIRONMENT".data).or
        ((assocLookup fileVars "ENVIRONMENT".data).or
          (lookupEnv sysEnv "ENVIRONMENT".data))).or
        (if environment.isEmpty then none else some environment) := by
  have hPk : ('=' : Char) ∉ "PORT".data := by decide
  have hEk : ('=' : Char) ∉ "ENVIRONMENT".data := by decide
  have hPE : "PORT".data ≠ "ENVIRONMENT".data := by decide
  have h2 : ∀ k, '=' ∉ k →
      lookupEnv (mergeVars (mergeVars sysEnv fileVars) jsonVars) k =
        (assocLookup jsonVars k).or ((assocLookup fileVars k).or (lookupEnv sysEnv k)) := by
    intro k hk
    rw [lookupEnv_mergeVars jsonVars _ k hk hjk hjn,
        lookupEnv_mergeVars fileVars sysEnv k hk hfk hfn]
  have hprep : prepareEnvironment sysEnv fileVars jsonVars port environment =
      appendIfAbsent
        (appendIfAbsent (mergeVars (mergeVars sysEnv fileVars) jsonVars)
          "PORT".data (intChars port) (decide (0 < port)))
        "ENVIRONMENT".data environment (!environment.isEmpty) := rfl
  refine ⟨?_, ?_, ?_⟩
  · intro k hk hkP hkE
    rw [hprep]
    rw [lookupEnv_appendIfAbsent_ne _ _ _ _ k hk hEk hkE]
    rw [lookupEnv_appendIfAbsent_ne _ _ _ _ k hk hPk hkP]
    exact h2 k hk
  · rw [hprep]
    rw [lookupEnv_appendIfAbsent_ne _ _ _ _ _ hPk hEk hPE]
    rw [lookupEnv_appendIfAbsent_self]
    rw [h2 _ hPk]
    congr 1
    by_cases hp : 0 < port <;> simp [hp]
  · rw [hprep]
    rw [lookupEnv_appendIfAbsent_self]
    rw [lookupEnv_appendIfAbsent_ne _ _ _ _ _ hEk hPk (Ne.symm hPE)]
    rw [h2 _ hEk]
    congr 1
    cases he : environment.isEmpty <;> simp

/-- Witness for C2: a concrete inherited environment, env file, and inline
JSON map: `A` is set by all three layers (JSON wins), `PORT` is set by the
env file (so the port default is not appended), and `ENVIRONMENT` is unset
everywhere (so the declared tag is appended). -/
theorem prepareEnvironment_precedence_witness :
    lookupEnv
      (prepareEnvironment
        [mkEnvEntry "HOME".data "/root".data, mkEnvEntry "A".data "inherited".data]
        [("A".data, "file".data), ("PORT".data, "9".data)]
        [("A".data, "json".data)] 8080 "development".data) "A".data =
      (assocLookup [("A".data, "json".data)] "A".data).or
        ((assocLookup [("A".data, "file".data), ("PORT".data, "9".data)] "A".data).or
          (lookupEnv
            [mkEnvEntry "HOME".data "/root".data, mkEnvEntry "A".data "inherited".data]
            "A".data)) ∧
    lookupEnv
      (prepareEnvironment
        [mkEnvEntry "HOME".data "/root".data, mkEnvEntry "A".data "inherited".data]
        [("A".data, "file".data), ("PORT".data, "9".data)]
        [("A".data, "json".data)] 8080 "development".data) "PORT".data =
      ((assocLookup [("A".data, "json".data)] "PORT".data).or
        ((assocLookup [("A".data, "file".data), ("PORT".data, "9".data)] "PORT".data).or
          (lookupEnv
            [mkEnvEntry "HOME".data "/root".data, mkEnvEntry "A".data "inherited".data]
            "PORT".data))).or
        (if (0 : Int) < 8080 then some (intChars 8080) else none) ∧
    lookupEnv
      (prepareEnvironment
        [mkEnvEntry "HOME".data "/root".data, mkEnvEntry "A".data "inherited".data]
        [("A".data, "file".data), ("PORT".data, "9".data)]
        [("A".data, "json".data)] 8080 "development".data) "ENVIRONMENT".data =
      ((assocLookup [("A".data, "json".data)] "ENVIRONMENT".data).or
        ((assocLookup [("A".data, "file".data), ("PORT".data, "9".data)]
            "ENVIRONMENT".data).or
          (lookupEnv
            [mkEnvEntry "HOME".data "/root".data, mkEnvEntry "A".data "inherited".data]
            "ENVIRONMENT".data))).or
        (if ("development".data : List Char).isEmpty then none
         else some "development".data) := by
  have h := prepareEnvironment_precedence
    [mkEnvEntry "HOME".data "/root".data, mkEnvEntry "A".data "inherited".data]
    [("A".data, "file".data), ("PORT".data, "9".data)]
    [("A".data, "json".data)] 8080 "development".data
    (by decide) (by decide) (by decide) (by decide)
  exact ⟨h.1 "A".data (by decide) (by decide) (by decide), h.2.1, h.2.2⟩
